import Mathlib

/-!
Verification development for the Wave-Function-Collapse tile-map solver.

The definitions below are a shallow embedding of the Rust sources:
  src/grid/tile_data.rs  (TileType, Domain, TileData)
  src/grid/tile.rs       (Tile)
  src/grid/coord.rs      (Coord, Direction)
  src/grid/map.rs        (Map)
  src/bucket_queue.rs    (BucketQueue)
  src/wfc/history.rs     (Action, CollapseKind, VisualEvent)
  src/wfc/wfc_state.rs   (WFCState: next, collapse, propagate, backtrack)

Machine integers: Rust u32 values are embedded as Nat; the theorems carry
explicit bounds (val < 2 ^ 32) where the width matters.  The u32 bitwise
not is embedded as xor with 2 ^ 32 - 1.
-/

/-- Bitwise not on a u32 value: in Rust, applying not to a u32 flips its 32
bits, which on Nat is xor with 2 ^ 32 - 1. -/
def u32not (n : Nat) : Nat := n ^^^ (2 ^ 32 - 1)

/-- Fuel-driven helper computing the number of trailing zero bits; 32 steps
of fuel are enough for every u32 value, and on input 0 all 32 steps are
consumed, giving 32 exactly as Rust u32::trailing_zeros does. -/
def tzGo : Nat → Nat → Nat
| 0, _ => 0
| f + 1, n => if n % 2 = 1 then 0 else tzGo f (n / 2) + 1

/-- Embedding of u32::trailing_zeros (total on u32 values, 32 on input 0). -/
def trailing_zeros (n : Nat) : Nat := tzGo 32 n

/-- Embedding of u32::count_ones on a u32 value: the number of bit
positions below 32 whose bit is set. -/
def count_ones (n : Nat) : Nat :=
  ((Finset.range 32).filter (fun i => n.testBit i = true)).card

/-- The bit-packed domain type from tile_data.rs: a public u32 newtype. -/
structure Domain where
  val : Nat
deriving DecidableEq

/-- The closed tile enumeration from tile_data.rs, with its repr(u8)
ordinals 0..24. -/
inductive TileType where
| DeepWater
| ShallowWater
| River
| Beach
| Grass
| Forest
| Mountain
| Snow
| Desert
| BeachWaterN
| BeachWaterE
| BeachWaterS
| BeachWaterW
| BeachWaterNe
| BeachWaterNw
| BeachWaterSe
| BeachWaterSw
| GrassForestN
| GrassForestE
| GrassForestS
| GrassForestW
| MountainSnowN
| MountainSnowE
| MountainSnowS
| MountainSnowW
deriving DecidableEq

namespace TileType

/-- The repr(u8) ordinal of a tile type (Rust: self as u8). -/
def toNum : TileType → Nat
| DeepWater => 0
| ShallowWater => 1
| River => 2
| Beach => 3
| Grass => 4
| Forest => 5
| Mountain => 6
| Snow => 7
| Desert => 8
| BeachWaterN => 9
| BeachWaterE => 10
| BeachWaterS => 11
| BeachWaterW => 12
| BeachWaterNe => 13
| BeachWaterNw => 14
| BeachWaterSe => 15
| BeachWaterSw => 16
| GrassForestN => 17
| GrassForestE => 18
| GrassForestS => 19
| GrassForestW => 20
| MountainSnowN => 21
| MountainSnowE => 22
| MountainSnowS => 23
| MountainSnowW => 24

/-- TileType::mask — the singleton bitmask 1u32 shifted left by the ordinal. -/
def mask (t : TileType) : Domain := ⟨1 <<< t.toNum⟩

/-- TileType::from_repr — partial inverse of the ordinal. -/
def from_repr : Nat → Option TileType
| 0 => some DeepWater
| 1 => some ShallowWater
| 2 => some River
| 3 => some Beach
| 4 => some Grass
| 5 => some Forest
| 6 => some Mountain
| 7 => some Snow
| 8 => some Desert
| 9 => some BeachWaterN
| 10 => some BeachWaterE
| 11 => some BeachWaterS
| 12 => some BeachWaterW
| 13 => some BeachWaterNe
| 14 => some BeachWaterNw
| 15 => some BeachWaterSe
| 16 => some BeachWaterSw
| 17 => some GrassForestN
| 18 => some GrassForestE
| 19 => some GrassForestS
| 20 => some GrassForestW
| 21 => some MountainSnowN
| 22 => some MountainSnowE
| 23 => some MountainSnowS
| 24 => some MountainSnowW
| _ => none

end TileType

namespace Domain

/-- Domain::is_empty. -/
def is_empty (d : Domain) : Bool := d.val == 0

/-- Domain::entropy — popcount of the u32 mask. -/
def entropy (d : Domain) : Nat := count_ones d.val

/-- Domain::intersection. -/
def intersection (a b : Domain) : Domain := ⟨a.val &&& b.val⟩

/-- Domain::difference — self and not other on u32. -/
def difference (a b : Domain) : Domain := ⟨a.val &&& u32not b.val⟩

/-- Domain::empty. -/
def empty : Domain := ⟨0⟩

/-- Domain::add_tiles (functional version of the in-place or-assignment). -/
def add_tiles (d tiles : Domain) : Domain := ⟨d.val ||| tiles.val⟩

/-- Domain::remove_tile (functional version of the in-place and-not). -/
def remove_tile (d : Domain) (t : TileType) : Domain :=
  ⟨d.val &&& u32not t.mask.val⟩

/-- The BitOr impl on Domain. -/
def bitor (a b : Domain) : Domain := ⟨a.val ||| b.val⟩

/-- The BitAnd impl on Domain. -/
def bitand (a b : Domain) : Domain := ⟨a.val &&& b.val⟩

/-- The BitXor impl on Domain. -/
def bitxor (a b : Domain) : Domain := ⟨a.val ^^^ b.val⟩

/-- The Not impl on Domain (u32 complement). -/
def not (a : Domain) : Domain := ⟨u32not a.val⟩

/-- Domain::from_tiles — fold of bitor of the masks. -/
def from_tiles (tiles : List TileType) : Domain :=
  tiles.foldl (fun acc tile => acc.bitor tile.mask) ⟨0⟩

/-- Domain::as_single_tile. -/
def as_single_tile (d : Domain) : Option TileType :=
  if d.entropy ≠ 1 then none
  else
    let bit_position := trailing_zeros d.val
    if bit_position > 24 then none
    else TileType.from_repr bit_position

/-- Helper of Domain::iter_tiles: the loop that repeatedly splits off the
lowest set bit (mask := mask and mask-1), yielding one singleton Domain per
set bit; 32 steps of fuel suffice for a u32 mask. -/
def iterGo : Nat → Nat → List Domain
| 0, _ => []
| f + 1, m =>
    if m = 0 then []
    else ⟨1 <<< trailing_zeros m⟩ :: iterGo f (m &&& (m - 1))

/-- Domain::iter_tiles — the singleton masks filtered through as_single_tile. -/
def iter_tiles (d : Domain) : List TileType :=
  (iterGo 32 d.val).filterMap as_single_tile

/-- Specification-level membership view of a Domain as a set of tile
types: tile t is in the set iff bit toNum t of the mask is set. -/
def has (d : Domain) (t : TileType) : Bool := d.val.testBit t.toNum

end Domain

/- ------------------------------------------------------------------ -/
/- Coord, Direction (coord.rs) and BucketQueue (bucket_queue.rs).      -/
/- ------------------------------------------------------------------ -/

/-- Grid coordinate (coord.rs). -/
structure Coord where
  row : Nat
  col : Nat
deriving DecidableEq

/-- Cardinal direction (coord.rs). -/
inductive Direction where
| Top
| Bottom
| Left
| Right
deriving DecidableEq

/-- Coord::neighbours — the four clipped neighbours in the fixed order Top,
Left, Bottom, Right, as an array of optional entries. -/
def Coord.neighbours (c : Coord) (max_row max_col : Nat) :
    List (Option (Direction × Coord)) :=
  [ if 0 < c.row then some (Direction.Top, ⟨c.row - 1, c.col⟩) else none,
    if 0 < c.col then some (Direction.Left, ⟨c.row, c.col - 1⟩) else none,
    if c.row + 1 < max_row then some (Direction.Bottom, ⟨c.row + 1, c.col⟩) else none,
    if c.col + 1 < max_col then some (Direction.Right, ⟨c.row, c.col + 1⟩) else none ]

/-- Errors of the bucket queue (bucket_queue.rs). -/
inductive BucketQueueError where
| EntropyOutOfBounds (entropy max : Nat)
| ZeroEntropy
| EntryNotFound (coord : Coord)
deriving DecidableEq

/-- The bucket queue: one bucket of coords per entropy value 1..=max.  A
Rust HashSet is embedded as a duplicate-free list; iteration order of a
HashSet is unspecified, and this embedding resolves it to list order. -/
structure BucketQueue where
  buckets : List (List Coord)
deriving DecidableEq

namespace BucketQueue

/-- BucketQueue::new. -/
def new (max_entropy : Nat) : BucketQueue := ⟨List.replicate max_entropy []⟩

/-- BucketQueue::get_bucket_index. -/
def get_bucket_index (q : BucketQueue) (entropy : Nat) :
    Except BucketQueueError Nat :=
  if entropy = 0 then .error .ZeroEntropy
  else
    let index := entropy - 1
    if q.buckets.length ≤ index then
      .error (.EntropyOutOfBounds entropy q.buckets.length)
    else .ok index

/-- HashSet::insert on a bucket: a no-op when the coord is present. -/
def bucketInsert (b : List Coord) (c : Coord) : List Coord :=
  if c ∈ b then b else b ++ [c]

/-- HashSet::remove on a bucket, with the was-present flag. -/
def bucketRemove (b : List Coord) (c : Coord) : Bool × List Coord :=
  (c ∈ b, b.filter (fun x => x ≠ c))

/-- The iter_mut().any(remove) pattern: remove the coord from the first
bucket containing it (any short-circuits), reporting whether one was found. -/
def removeFirst : List (List Coord) → Coord → Bool × List (List Coord)
| [], _ => (false, [])
| b :: rest, c =>
    if c ∈ b then (true, (bucketRemove b c).2 :: rest)
    else
      let (found, rest') := removeFirst rest c
      (found, b :: rest')

/-- BucketQueue::insert — note: no presence check at all. -/
def insert (q : BucketQueue) (coord : Coord) (entropy : Nat) :
    Except BucketQueueError BucketQueue :=
  match q.get_bucket_index entropy with
  | .error e => .error e
  | .ok index => .ok ⟨q.buckets.set index (bucketInsert (q.buckets.getD index []) coord)⟩

/-- BucketQueue::update_entropy. -/
def update_entropy (q : BucketQueue) (coord : Coord) (new_entropy : Nat) :
    Except BucketQueueError BucketQueue :=
  match q.get_bucket_index new_entropy with
  | .error e => .error e
  | .ok new_index =>
      let (removed, bs) := removeFirst q.buckets coord
      if removed = false then .error (.EntryNotFound coord)
      else .ok ⟨bs.set new_index (bucketInsert (bs.getD new_index []) coord)⟩

/-- Loop of BucketQueue::peek_min: find the first non-empty bucket. -/
def peekGo : List (List Coord) → Option Coord
| [] => none
| [] :: rest => peekGo rest
| (c :: _) :: _ => some c

/-- BucketQueue::peek_min — first element of the first non-empty bucket. -/
def peek_min (q : BucketQueue) : Option Coord :=
  peekGo q.buckets

/-- Loop of BucketQueue::extract_min: find the first non-empty bucket,
take one coord from it, remove that coord from that bucket, and report the
entropy as bucket index plus one. -/
def extractGo : List (List Coord) → Option (Coord × Nat × List (List Coord))
| [] => none
| [] :: rest =>
    (extractGo rest).map (fun r => (r.1, r.2.1 + 1, [] :: r.2.2))
| (c :: b) :: rest =>
    some (c, 1, ((c :: b).filter (fun x => x ≠ c)) :: rest)

/-- BucketQueue::extract_min. -/
def extract_min (q : BucketQueue) : Option ((Coord × Nat) × BucketQueue) :=
  (extractGo q.buckets).map (fun r => ((r.1, r.2.1), ⟨r.2.2⟩))

/-- BucketQueue::remove. -/
def remove (q : BucketQueue) (coord : Coord) :
    Except BucketQueueError BucketQueue :=
  let (removed, bs) := removeFirst q.buckets coord
  if removed = false then .error (.EntryNotFound coord)
  else .ok ⟨bs⟩

/-- Specification-level view: the coords stored in bucket j (0-based),
that is, at entropy j+1. -/
def atIndex (q : BucketQueue) (j : Nat) : List Coord := q.buckets.getD j []

end BucketQueue

/- ------------------------------------------------------------------ -/
/- Tiles, tile data, map (tile.rs, tile_data.rs, map.rs).              -/
/-                                                                     -/
/- tile.rs stores a cell domain as HashSet of TileType while            -/
/- wfc_state.rs manipulates it through the Domain bitmask API; the two  -/
/- are isomorphic as finite sets of tile types and this embedding uses  -/
/- Domain throughout.  A HashSet iterator is embedded as the list of    -/
/- members in ordinal order, and the rand-driven uniform choice in      -/
/- collapse_self as an externally supplied index into that list.        -/
/- ------------------------------------------------------------------ -/

/-- A grid cell (tile.rs): optional collapsed type plus current domain. -/
structure Tile where
  tile_type : Option TileType
  current_domain : Domain
deriving DecidableEq

namespace Tile

/-- Tile::get_current_domain_size. -/
def get_current_domain_size (t : Tile) : Nat := t.current_domain.entropy

/-- Tile::update_constraints — removes everything outside new_constraints,
reports the removed set (none when nothing was removed), and on reaching a
singleton domain records the sole member as the collapsed tile type. -/
def update_constraints (tile : Tile) (new_constraints : Domain) :
    Option Domain × Tile :=
  let removed := tile.current_domain.difference new_constraints
  let dom' := tile.current_domain.intersection new_constraints
  if removed.is_empty then (none, { tile with current_domain := dom' })
  else
    (some removed,
      { tile_type := if dom'.entropy = 1 then dom'.as_single_tile else tile.tile_type,
        current_domain := dom' })

/-- Tile::remove_contradiction_from_domain. -/
def remove_contradiction_from_domain (tile : Tile) (t : TileType) : Tile :=
  { tile with current_domain := tile.current_domain.remove_tile t }

/-- Tile::collapse_self — pick a member of the domain (the rand choice is
determinized by index k into the ordinal-ordered member list), remove the
others, collapse to it; none embeds the anyhow error on an empty domain. -/
def collapse_self (tile : Tile) (k : Nat) :
    Option (TileType × Domain × Tile) :=
  let members := tile.current_domain.iter_tiles
  match members with
  | [] => none
  | m :: _ =>
      let chosen := members.getD (k % members.length) m
      let removed := tile.current_domain.difference chosen.mask
      some (chosen, removed,
        { tile_type := some chosen, current_domain := chosen.mask })

end Tile

/-- Per-direction allowed-neighbour domains (tile_data.rs). -/
structure TileConstraints where
  top : Domain
  right : Domain
  bottom : Domain
  left : Domain

/-- Tile data (tile_data.rs): full domain plus supports lookup; the
HashMap is embedded as a function to Option. -/
structure TileData where
  tiles : Domain
  supports : TileType → Option TileConstraints

/-- The grid (map.rs). -/
structure Map where
  width : Nat
  height : Nat
  tile_data : TileData
  tiles : List (List Tile)

/-- Default tile used only to totalize list indexing (out-of-bounds access
panics in Rust and never happens on in-bounds coords). -/
def defaultTile : Tile := ⟨none, Domain.empty⟩

/-- Map::get_tile_mut read access. -/
def Map.get_tile (m : Map) (c : Coord) : Tile :=
  (m.tiles.getD c.row []).getD c.col defaultTile

/-- Writing back through Map::get_tile_mut. -/
def Map.set_tile (m : Map) (c : Coord) (t : Tile) : Map :=
  { m with tiles := m.tiles.set c.row ((m.tiles.getD c.row []).set c.col t) }

/- ------------------------------------------------------------------ -/
/- History and events (history.rs).                                    -/
/- ------------------------------------------------------------------ -/

/-- CollapseKind (history.rs). -/
inductive CollapseKind where
| Explicit
| Implicit
deriving DecidableEq

/-- Action (history.rs); removed sets are Domains (sets of tile types).
Named WFC.Action because Mathlib already declares Action. -/
inductive WFC.Action where
| Collapse (kind : CollapseKind) (tile_type : TileType) (coord : Coord)
    (removed : Domain)
| DomainReduction (coord : Coord) (removed : Domain) (current_entropy : Nat)
deriving DecidableEq

/-- VisualEvent (history.rs). -/
inductive VisualEvent where
| SetTile (tile_type : TileType) (coord : Coord)
| UndoTile (coord : Coord)
deriving DecidableEq

/- ------------------------------------------------------------------ -/
/- The solver driver (wfc_state.rs).                                   -/
/- ------------------------------------------------------------------ -/

/-- All error values that can travel through the solver: the two
Contradiction variants plus the anyhow errors of wfc_state.rs; OutOfFuel
marks exhaustion of the step budget of this embedding, never reached on
the concrete runs below. -/
inductive SolverError where
| EmptyDomain (tile_type : TileType) (coord : Coord)
| ExhaustedPaths (tile_type : TileType) (coord : Coord)
| MissingConstraint (tile_type : TileType)
| CollapseEmptyDomain (coord : Coord)
| NoCellsLeft
| NoCollapseToRevert
| QueueError (e : BucketQueueError)
| CollapsedButNone (coord : Coord)
| OutOfFuel
deriving DecidableEq

/-- Solver state (wfc_state.rs) plus the determinized rand stream: picks
feeds one index per explicit collapse_self call.  Rust mutates the state
in place and returns Result; errors here carry the mutated state. -/
structure WFCState where
  map : Map
  least_entropy : BucketQueue
  timeline : List VisualEvent
  history : List WFC.Action
  picks : List Nat

namespace WFCState

/-- Row-by-row insertion loop of set_initial_entropy (single row). -/
def insertRow (q : BucketQueue) (row : Nat) : Nat → List Tile → Option BucketQueue
| _, [] => some q
| col, tile :: rest =>
    match q.insert ⟨row, col⟩ tile.get_current_domain_size with
    | .error _ => none
    | .ok q' => insertRow q' row (col + 1) rest

/-- All rows of set_initial_entropy. -/
def insertRows : BucketQueue → Nat → List (List Tile) → Option BucketQueue
| q, _, [] => some q
| q, row, r :: rest =>
    match insertRow q row 0 r with
    | none => none
    | some q' => insertRows q' (row + 1) rest

/-- WFCState::set_initial_entropy — every coord enters the queue at its
current domain size; the Rust panic on an insert error is embedded as
none. -/
def set_initial_entropy (m : Map) : Option BucketQueue :=
  insertRows (BucketQueue.new m.tile_data.tiles.entropy) 0 m.tiles

/-- WFCState::new (with the choice stream for collapse_self). -/
def new (m : Map) (picks : List Nat) : Option WFCState :=
  (set_initial_entropy m).map (fun q => ⟨m, q, [], [], picks⟩)

/-- Predicate of find_last_collapse: an explicit collapse entry. -/
def isExplicitCollapse : WFC.Action → Bool
| .Collapse .Explicit _ _ _ => true
| _ => false

/-- WFCState::find_last_collapse — rposition of the last explicit
collapse in the history. -/
def find_last_collapse (s : WFCState) : Option Nat :=
  (s.history.reverse.findIdx? isExplicitCollapse).map
    (fun i => s.history.length - 1 - i)

/-- WFCState::undo_collapse. -/
def undo_collapse (s : WFCState) (coord : Coord) (removed : Domain) :
    Except (SolverError × WFCState) WFCState :=
  let tile := s.map.get_tile coord
  let tile' : Tile := ⟨none, tile.current_domain.add_tiles removed⟩
  let s₁ := { s with map := s.map.set_tile coord tile' }
  match s₁.least_entropy.insert coord tile'.get_current_domain_size with
  | .error e => .error (.QueueError e, s₁)
  | .ok q =>
      .ok { s₁ with
              least_entropy := q,
              timeline := s₁.timeline ++ [.UndoTile coord] }

/-- WFCState::undo_domain_reduction. -/
def undo_domain_reduction (s : WFCState) (coord : Coord) (removed : Domain) :
    Except (SolverError × WFCState) WFCState :=
  let tile := s.map.get_tile coord
  let tile' : Tile := { tile with current_domain := tile.current_domain.add_tiles removed }
  let s₁ := { s with map := s.map.set_tile coord tile' }
  match s₁.least_entropy.update_entropy coord tile'.get_current_domain_size with
  | .error e => .error (.QueueError e, s₁)
  | .ok q => .ok { s₁ with least_entropy := q }

/-- The while loop of backtrack: pop and invert history entries until the
history length reaches the target; fuel is the history length, always
sufficient. -/
def backtrackLoop : Nat → WFCState → Nat → Except (SolverError × WFCState) WFCState
| 0, s, _ => .ok s
| f + 1, s, tgt =>
    if s.history.length ≤ tgt then .ok s
    else
      match s.history.getLast? with
      | none => .ok s
      | some a =>
          let s₁ := { s with history := s.history.dropLast }
          match a with
          | .Collapse _ _ coord removed =>
              match s₁.undo_collapse coord removed with
              | .error e => .error e
              | .ok s₂ => backtrackLoop f s₂ tgt
          | .DomainReduction coord removed _ =>
              match s₁.undo_domain_reduction coord removed with
              | .error e => .error e
              | .ok s₂ => backtrackLoop f s₂ tgt

/-- WFCState::backtrack — the undo loop, then the boundary pop: only a
Collapse entry is restored-and-forbidden (the if-let); any other popped
entry is silently discarded. -/
def backtrack (s : WFCState) (tgt : Nat) : Except (SolverError × WFCState) WFCState :=
  match backtrackLoop s.history.length s tgt with
  | .error e => .error e
  | .ok s₁ =>
      match s₁.history.getLast? with
      | none => .ok s₁
      | some a =>
          let s₂ := { s₁ with history := s₁.history.dropLast }
          match a with
          | .Collapse _ tile_type coord removed =>
              let tile := s₂.map.get_tile coord
              let tile₁ : Tile :=
                ⟨none, (tile.current_domain.add_tiles removed).remove_tile tile_type⟩
              let s₃ := { s₂ with map := s₂.map.set_tile coord tile₁ }
              if tile₁.get_current_domain_size = 0 then
                .error (.ExhaustedPaths tile_type coord, s₃)
              else
                match s₃.least_entropy.insert coord tile₁.get_current_domain_size with
                | .error e => .error (.QueueError e, s₃)
                | .ok q =>
                    .ok { s₃ with
                            least_entropy := q,
                            timeline := s₃.timeline ++ [.UndoTile coord] }
          | .DomainReduction _ _ _ => .ok s₂

/-- The union of supports over the tiles of the changed cell's domain, in
the chosen direction; errors with the anyhow missing-constraint message
when a tile type has no supports entry. -/
def allSupported (td : TileData) (direction : Direction) :
    List TileType → Domain → Except SolverError Domain
| [], acc => .ok acc
| t :: ts, acc =>
    match td.supports t with
    | none => .error (.MissingConstraint t)
    | some tile_constraints =>
        let new_constraints :=
          match direction with
          | .Top => tile_constraints.top
          | .Bottom => tile_constraints.bottom
          | .Right => tile_constraints.right
          | .Left => tile_constraints.left
        allSupported td direction ts (acc.add_tiles new_constraints)

/-- The body of propagate's for loop for one neighbour (direction, coord)
of changed_cell. -/
def processOne (s : WFCState) (chosen_cell : Coord) (chosen_tile : TileType)
    (changed_cell : Coord) (stack : List Coord) (dc : Direction × Coord) :
    Except (SolverError × WFCState) (WFCState × List Coord) :=
  let current_tile_types := (s.map.get_tile changed_cell).current_domain
  match allSupported s.map.tile_data dc.1 current_tile_types.iter_tiles Domain.empty with
  | .error e => .error (e, s)
  | .ok all_supported_tile_types =>
      let coord := dc.2
      let current_tile := s.map.get_tile coord
      if current_tile.tile_type.isSome then .ok (s, stack)
      else
        let entropy_before_update := current_tile.get_current_domain_size
        let (removed_tiles, tile') := current_tile.update_constraints all_supported_tile_types
        let s₁ := { s with map := s.map.set_tile coord tile' }
        match removed_tiles with
        | none => .ok (s₁, stack)
        | some removed =>
            let entropy_after_update := tile'.get_current_domain_size
            let stack₁ := coord :: stack
            if entropy_after_update = 0 then
              .error (.EmptyDomain chosen_tile chosen_cell,
                { s₁ with history := s₁.history ++
                    [.DomainReduction coord removed entropy_before_update] })
            else
              match s₁.least_entropy.update_entropy coord entropy_after_update with
              | .error e => .error (.QueueError e, s₁)
              | .ok q =>
                  let s₂ := { s₁ with
                                least_entropy := q,
                                history := s₁.history ++
                                  [.DomainReduction coord removed entropy_after_update] }
                  if entropy_after_update = 1 then
                    match tile'.tile_type with
                    | none => .error (.CollapsedButNone changed_cell, s₂)
                    | some tile_type =>
                        match s₂.least_entropy.remove coord with
                        | .error e => .error (.QueueError e, s₂)
                        | .ok q₂ =>
                            .ok ({ s₂ with
                                      least_entropy := q₂,
                                      timeline := s₂.timeline ++ [.SetTile tile_type coord],
                                      history := s₂.history ++
                                        [.Collapse .Implicit tile_type coord removed] },
                              stack₁)
                  else .ok (s₂, stack₁)

/-- The for loop of propagate over the flattened neighbour array. -/
def processNeighbours (chosen_cell : Coord) (chosen_tile : TileType)
    (changed_cell : Coord) :
    WFCState → List Coord → List (Direction × Coord) →
    Except (SolverError × WFCState) (WFCState × List Coord)
| s, stack, [] => .ok (s, stack)
| s, stack, dc :: rest =>
    match processOne s chosen_cell chosen_tile changed_cell stack dc with
    | .error e => .error e
    | .ok (s', stack') => processNeighbours chosen_cell chosen_tile changed_cell s' stack' rest

/-- WFCState::propagate — depth-first worklist; note that the neighbour
bounds are passed as width-for-rows, height-for-columns exactly as in
wfc_state.rs line 225 (the call swaps the roles for non-square maps). -/
def propagateLoop : Nat → WFCState → Coord → TileType → List Coord →
    Except (SolverError × WFCState) WFCState
| 0, s, _, _, _ => .error (.OutOfFuel, s)
| f + 1, s, chosen_cell, chosen_tile, stack =>
    match stack with
    | [] => .ok s
    | changed_cell :: rest =>
        let neighbours :=
          (changed_cell.neighbours s.map.width s.map.height).reduceOption
        match processNeighbours chosen_cell chosen_tile changed_cell s rest neighbours with
        | .error e => .error e
        | .ok (s', stack') => propagateLoop f s' chosen_cell chosen_tile stack'

/-- The ExhaustedPaths retry loop inside collapse: on ExhaustedPaths the
new target is find_last_collapse() with NO plus-one (wfc_state.rs lines
202-204), unlike the initial target; any other error propagates. -/
def btLoop : Nat → WFCState → Nat → Except (SolverError × WFCState) WFCState
| 0, s, _ => .error (.OutOfFuel, s)
| f + 1, s, tgt =>
    match s.backtrack tgt with
    | .ok s' => .ok s'
    | .error (e, s') =>
        match e with
        | .ExhaustedPaths _ _ =>
            match s'.find_last_collapse with
            | none => .error (.NoCollapseToRevert, s')
            | some idx => btLoop f s' idx
        | _ => .error (e, s')

/-- WFCState::collapse — the pick/collapse/propagate/backtrack loop. -/
def collapseLoop : Nat → WFCState →
    Except (SolverError × WFCState) (TileType × Coord × WFCState)
| 0, s => .error (.OutOfFuel, s)
| f + 1, s =>
    match s.least_entropy.extract_min with
    | none => .error (.NoCellsLeft, s)
    | some ((chosen_cell, _entropy), q) =>
        let s₀ := { s with least_entropy := q }
        let k := s₀.picks.headD 0
        let s₁ := { s₀ with picks := s₀.picks.tail }
        match (s₁.map.get_tile chosen_cell).collapse_self k with
        | none => .error (.CollapseEmptyDomain chosen_cell, s₁)
        | some (chosen_tile_type, removed, tile') =>
            let s₂ := { s₁ with
                          map := s₁.map.set_tile chosen_cell tile',
                          timeline := s₁.timeline ++ [.SetTile chosen_tile_type chosen_cell],
                          history := s₁.history ++
                            [.Collapse .Explicit chosen_tile_type chosen_cell removed] }
            match propagateLoop f s₂ chosen_cell chosen_tile_type [chosen_cell] with
            | .ok s₃ => .ok (chosen_tile_type, chosen_cell, s₃)
            | .error (_, s₃) =>
                match s₃.find_last_collapse with
                | none => .error (.NoCollapseToRevert, s₃)
                | some idx =>
                    match btLoop f s₃ (idx + 1) with
                    | .error e => .error e
                    | .ok s₄ => collapseLoop f s₄

/-- Iterator::next for WFCState: pop the timeline front, or if the queue
is non-empty run a collapse cycle and return a freshly built SetTile of
its result (the timeline copy is NOT popped); errors are logged and give
none.  The (possibly mutated) state is returned alongside. -/
def next (fuel : Nat) (s : WFCState) : Option VisualEvent × WFCState :=
  match s.timeline with
  | e :: rest => (some e, { s with timeline := rest })
  | [] =>
      match s.least_entropy.peek_min with
      | none => (none, s)
      | some _ =>
          match collapseLoop fuel s with
          | .ok (tile_type, coord, s') => (some (.SetTile tile_type coord), s')
          | .error (_, s') => (none, s')

/-- n successive next() calls, collecting the returned events. -/
def stepEvents (fuel : Nat) : Nat → WFCState → List (Option VisualEvent)
| 0, _ => []
| n + 1, s =>
    match next fuel s with
    | (e, s') => e :: stepEvents fuel n s'

end WFCState

/- ------------------------------------------------------------------ -/
/- Result projections and the cell invariant.                          -/
/- ------------------------------------------------------------------ -/

/-- The state carried by a solver step outcome, ok or error (Rust mutates
in place, so the state survives an Err return). -/
def outState : Except (SolverError × WFCState) WFCState → WFCState
| .ok s => s
| .error (_, s) => s

/-- The state carried by a processOne outcome. -/
def outStateP : Except (SolverError × WFCState) (WFCState × List Coord) → WFCState
| .ok (s, _) => s
| .error (_, s) => s

/-- The collapsed tile and coord of a successful collapse cycle. -/
def okResult : Except (SolverError × WFCState) (TileType × Coord × WFCState) →
    Option (TileType × Coord)
| .ok (t, c, _) => some (t, c)
| .error _ => none

/-- The state of a successful collapse cycle. -/
def okState : Except (SolverError × WFCState) (TileType × Coord × WFCState) →
    Option WFCState
| .ok (_, _, s) => some s
| .error _ => none

/-- The cell invariant: a collapsed cell's domain is exactly the singleton
of its tile type. -/
def cellInv (tile : Tile) : Prop :=
  ∀ t, tile.tile_type = some t → tile.current_domain = t.mask

/-- The per-direction field selection used in propagate. -/
def dirField (tc : TileConstraints) : Direction → Domain
| .Top => tc.top
| .Bottom => tc.bottom
| .Right => tc.right
| .Left => tc.left

/- ------------------------------------------------------------------ -/
/- Concrete scenarios.  Tile A is DeepWater (ordinal 0, mask 1) and     -/
/- tile B is ShallowWater (ordinal 1, mask 2) throughout.               -/
/- ------------------------------------------------------------------ -/

/-- Scenario tile A. -/
def tileA : TileType := TileType.DeepWater

/-- Scenario tile B. -/
def tileB : TileType := TileType.ShallowWater

/-- The two-tile full domain {A, B}. -/
def fullAB : Domain := ⟨3⟩

/-- S1 tile data: single tile A supporting itself in all directions. -/
def tdS1 : TileData :=
  ⟨tileA.mask, fun t =>
    match t with
    | .DeepWater => some ⟨tileA.mask, tileA.mask, tileA.mask, tileA.mask⟩
    | _ => none⟩

/-- S1 map: 1 x 1, the single cell starting at the full domain {A}. -/
def mapS1 : Map := ⟨1, 1, tdS1, [[⟨none, tileA.mask⟩]]⟩

/-- C3 scenario tile data: supports entry present for A (all directions
full) but MISSING for B. -/
def tdC3 : TileData :=
  ⟨fullAB, fun t =>
    match t with
    | .DeepWater => some ⟨fullAB, fullAB, fullAB, fullAB⟩
    | _ => none⟩

/-- C3 map: 2 x 2, all cells starting at {A, B}. -/
def mapC3 : Map :=
  ⟨2, 2, tdC3,
    [[⟨none, fullAB⟩, ⟨none, fullAB⟩], [⟨none, fullAB⟩, ⟨none, fullAB⟩]]⟩

/-- C4 scenario tile data, asymmetric: supports(A, Top) = {A} while
supports(B, Bottom) = {A}, so a cell can collapse to A under a B above it
without B being in supports(A, Top). -/
def tdC4 : TileData :=
  ⟨fullAB, fun t =>
    match t with
    | .DeepWater => some ⟨⟨1⟩, ⟨2⟩, ⟨2⟩, ⟨3⟩⟩
    | .ShallowWater => some ⟨⟨3⟩, ⟨1⟩, ⟨1⟩, ⟨3⟩⟩
    | _ => none⟩

/-- C4 map: 2 x 2, all cells starting at {A, B}. -/
def mapC4 : Map :=
  ⟨2, 2, tdC4,
    [[⟨none, fullAB⟩, ⟨none, fullAB⟩], [⟨none, fullAB⟩, ⟨none, fullAB⟩]]⟩

/-- C2 scenario tile data: A fully permissive, supports(B, Bottom) empty. -/
def tdC2 : TileData :=
  ⟨fullAB, fun t =>
    match t with
    | .DeepWater => some ⟨fullAB, fullAB, fullAB, fullAB⟩
    | .ShallowWater => some ⟨fullAB, fullAB, ⟨0⟩, fullAB⟩
    | _ => none⟩

/-- C2 map: 2 x 2 mid-solve grid: (0,0) explicitly collapsed to A, (0,1)
reduced to the singleton {B}, the bottom row untouched. -/
def mapC2 : Map :=
  ⟨2, 2, tdC2,
    [[⟨some tileA, ⟨1⟩⟩, ⟨none, ⟨2⟩⟩], [⟨none, fullAB⟩, ⟨none, fullAB⟩]]⟩

/-- C2 solver state: the history holds the single explicit collapse of
(0,0) with empty removed set; (0,1) sits in the queue at entropy 1 and the
bottom cells at entropy 2. -/
def sC2 : WFCState :=
  ⟨mapC2, ⟨[[⟨0, 1⟩], [⟨1, 0⟩, ⟨1, 1⟩]]⟩, [],
    [.Collapse .Explicit tileA ⟨0, 0⟩ ⟨0⟩], []⟩

/-- A concrete 2 x 2 state used to witness the propagation step theorem. -/
def sW4 : WFCState :=
  ⟨mapC4, ⟨[[], [⟨0, 0⟩, ⟨0, 1⟩, ⟨1, 0⟩, ⟨1, 1⟩]]⟩, [], [], []⟩

/- ------------------------------------------------------------------ -/
/- Supporting lemmas about the bit-level helpers.                      -/
/- ------------------------------------------------------------------ -/

theorem tzGo_pow {f k : Nat} (h : k < f) : tzGo f (2 ^ k) = k := by
  induction f generalizing k with
  | zero => omega
  | succ f ih =>
    cases k with
    | zero => simp [tzGo]
    | succ j =>
      have hev : 2 ^ (j + 1) % 2 = 0 := by
        simp [Nat.pow_succ, Nat.mul_mod_left]
      have hdiv : 2 ^ (j + 1) / 2 = 2 ^ j := by
        rw [Nat.pow_succ, Nat.mul_div_cancel]; omega
      simp only [tzGo, hev]
      rw [if_neg (by omega), hdiv, ih (by omega)]

theorem trailing_zeros_pow {k : Nat} (h : k < 32) :
    trailing_zeros (2 ^ k) = k := tzGo_pow h

theorem testBit_high {n i : Nat} (hn : n < 2 ^ 32) (hi : 32 ≤ i) :
    n.testBit i = false :=
  Nat.testBit_eq_false_of_lt
    (lt_of_lt_of_le hn (Nat.pow_le_pow_right (by norm_num) hi))

theorem count_ones_pow {k : Nat} (h : k < 32) : count_ones (2 ^ k) = 1 := by
  have : (Finset.range 32).filter (fun i => (2 ^ k).testBit i = true) = {k} := by
    ext i
    simp only [Finset.mem_filter, Finset.mem_range, Finset.mem_singleton,
      Nat.testBit_two_pow]
    constructor
    · rintro ⟨_, h2⟩; exact (of_decide_eq_true h2).symm
    · rintro rfl; exact ⟨h, by simp⟩
  rw [count_ones, this, Finset.card_singleton]

theorem count_ones_eq_one {n : Nat} (hn : n < 2 ^ 32)
    (h : count_ones n = 1) : ∃ k, k < 32 ∧ n = 2 ^ k := by
  obtain ⟨k, hk⟩ := Finset.card_eq_one.mp h
  have hkmem : k ∈ (Finset.range 32).filter (fun i => n.testBit i = true) := by
    rw [hk]; exact Finset.mem_singleton_self k
  rw [Finset.mem_filter, Finset.mem_range] at hkmem
  refine ⟨k, hkmem.1, Nat.eq_of_testBit_eq fun i => ?_⟩
  rw [Nat.testBit_two_pow]
  by_cases hik : k = i
  · subst hik; simp [hkmem.2]
  · simp only [decide_eq_false hik]
    by_cases hbit : n.testBit i = true
    · have hi32 : i < 32 := by
        by_contra hge
        rw [testBit_high hn (by omega)] at hbit
        exact Bool.false_ne_true hbit
      have : i ∈ (Finset.range 32).filter (fun j => n.testBit j = true) := by
        rw [Finset.mem_filter, Finset.mem_range]; exact ⟨hi32, hbit⟩
      rw [hk, Finset.mem_singleton] at this
      exact absurd this.symm hik
    · simpa using hbit

theorem mask_val (t : TileType) : t.mask.val = 2 ^ t.toNum := by
  rw [TileType.mask, Nat.shiftLeft_eq, one_mul]

theorem toNum_lt (t : TileType) : t.toNum < 25 := by cases t <;> decide

theorem from_repr_toNum (t : TileType) :
    TileType.from_repr t.toNum = some t := by cases t <;> rfl

theorem from_repr_ge (m : Nat) : TileType.from_repr (m + 25) = none := rfl

theorem from_repr_some {n : Nat} {t : TileType}
    (h : TileType.from_repr n = some t) : t.toNum = n := by
  by_cases hn : n < 25
  · interval_cases n <;>
      (cases Option.some.inj h; rfl)
  · obtain ⟨m, rfl⟩ : ∃ m, n = m + 25 := ⟨n - 25, by omega⟩
    rw [from_repr_ge] at h
    exact absurd h (by simp)

theorem as_single_eq_some {d : Domain} {t : TileType} (hd : d.val < 2 ^ 32) :
    d.as_single_tile = some t ↔ d.entropy = 1 ∧ d = t.mask := by
  constructor
  · intro h
    rw [Domain.as_single_tile] at h
    by_cases he : d.entropy = 1
    · refine ⟨he, ?_⟩
      obtain ⟨k, hk32, hkeq⟩ := count_ones_eq_one hd he
      rw [if_neg (by simp [he])] at h
      simp only [hkeq, trailing_zeros_pow hk32] at h
      by_cases hk24 : k > 24
      · rw [if_pos hk24] at h; exact absurd h (by simp)
      · rw [if_neg hk24] at h
        have hnum := from_repr_some h
        cases d
        simp only [Domain.mk.injEq] at hkeq
        subst hkeq
        rw [← hnum, ← mask_val]
    · rw [if_pos (by simp [he])] at h; exact absurd h (by simp)
  · rintro ⟨he, rfl⟩
    rw [Domain.as_single_tile, if_neg (by simp [he])]
    simp only [mask_val, trailing_zeros_pow (lt_trans (toNum_lt t) (by norm_num))]
    rw [if_neg (by have := toNum_lt t; omega)]
    exact from_repr_toNum t

/-- C8: Domain::as_single_tile returns some t exactly when the domain has
entropy 1 and equals the singleton mask of t; equivalently it is defined
exactly when the domain has one member and then returns the TileType whose
ordinal is the index of the only set bit, and is none otherwise. -/
theorem as_single_tile_iff (d : Domain) (hd : d.val < 2 ^ 32) (t : TileType) :
    d.as_single_tile = some t ↔ d.entropy = 1 ∧ d = t.mask :=
  as_single_eq_some hd

/-- Witness for C8 at a concrete input: the domain with only bit 0 set is
recognised as the singleton of DeepWater. -/
theorem as_single_tile_iff_witness :
    Domain.as_single_tile ⟨1⟩ = some TileType.DeepWater ↔
      Domain.entropy ⟨1⟩ = 1 ∧ (⟨1⟩ : Domain) = TileType.DeepWater.mask :=
  as_single_tile_iff ⟨1⟩ (by norm_num) TileType.DeepWater

theorem count_ones_lor (a b : Nat) :
    count_ones (a ||| b) + count_ones (a &&& b) = count_ones a + count_ones b := by
  have hu : (Finset.range 32).filter (fun i => (a ||| b).testBit i = true) =
      ((Finset.range 32).filter (fun i => a.testBit i = true)) ∪
        ((Finset.range 32).filter (fun i => b.testBit i = true)) := by
    ext i
    simp only [Finset.mem_filter, Finset.mem_union, Finset.mem_range,
      Nat.testBit_lor, Bool.or_eq_true]
    tauto
  have hi : (Finset.range 32).filter (fun i => (a &&& b).testBit i = true) =
      ((Finset.range 32).filter (fun i => a.testBit i = true)) ∩
        ((Finset.range 32).filter (fun i => b.testBit i = true)) := by
    ext i
    simp only [Finset.mem_filter, Finset.mem_inter, Finset.mem_range,
      Nat.testBit_land, Bool.and_eq_true]
    tauto
  rw [count_ones, count_ones, hu, hi]
  exact Finset.card_union_add_card_inter _ _

/-- C9: the Domain algebra identities: entropy is a valuation with respect
to bitor and intersection; difference and intersection partition a domain;
self-difference is empty; intersection with the complement is empty. -/
theorem domain_algebra (a b : Domain) (ha : a.val < 2 ^ 32) (hb : b.val < 2 ^ 32) :
    (a.bitor b).entropy + (a.intersection b).entropy = a.entropy + b.entropy ∧
    (a.difference b).bitor (a.intersection b) = a ∧
    a.difference a = Domain.empty ∧
    a.intersection a.not = Domain.empty := by
  refine ⟨count_ones_lor a.val b.val, ?_, ?_, ?_⟩
  · cases a with
    | mk av =>
      cases b with
      | mk bv =>
        simp only [Domain.difference, Domain.intersection, Domain.bitor,
          u32not, Domain.mk.injEq]
        apply Nat.eq_of_testBit_eq
        intro i
        rcases lt_or_le i 32 with hi | hi
        · simp only [Nat.testBit_lor, Nat.testBit_land, Nat.testBit_xor,
            Nat.testBit_two_pow_sub_one, decide_eq_true hi]
          cases av.testBit i <;> cases bv.testBit i <;> rfl
        · simp only [Nat.testBit_lor, Nat.testBit_land,
            testBit_high ha hi, Bool.false_and, Bool.or_self]
  · cases a with
    | mk av =>
      simp only [Domain.difference, Domain.empty, u32not, Domain.mk.injEq]
      apply Nat.eq_of_testBit_eq
      intro i
      rcases lt_or_le i 32 with hi | hi
      · simp only [Nat.testBit_land, Nat.testBit_xor,
          Nat.testBit_two_pow_sub_one, decide_eq_true hi, Nat.zero_testBit]
        cases av.testBit i <;> rfl
      · simp only [Nat.testBit_land, testBit_high ha hi, Bool.false_and,
          Nat.zero_testBit]
  · cases a with
    | mk av =>
      simp only [Domain.intersection, Domain.not, Domain.empty, u32not,
        Domain.mk.injEq]
      apply Nat.eq_of_testBit_eq
      intro i
      rcases lt_or_le i 32 with hi | hi
      · simp only [Nat.testBit_land, Nat.testBit_xor,
          Nat.testBit_two_pow_sub_one, decide_eq_true hi, Nat.zero_testBit]
        cases av.testBit i <;> rfl
      · simp only [Nat.testBit_land, testBit_high ha hi, Bool.false_and,
          Nat.zero_testBit]

/-- Witness for C9 at concrete domains 5 and 3. -/
theorem domain_algebra_witness :
    ((⟨5⟩ : Domain).bitor ⟨3⟩).entropy + ((⟨5⟩ : Domain).intersection ⟨3⟩).entropy =
        (⟨5⟩ : Domain).entropy + (⟨3⟩ : Domain).entropy ∧
    ((⟨5⟩ : Domain).difference ⟨3⟩).bitor ((⟨5⟩ : Domain).intersection ⟨3⟩) = ⟨5⟩ ∧
    (⟨5⟩ : Domain).difference ⟨5⟩ = Domain.empty ∧
    (⟨5⟩ : Domain).intersection (⟨5⟩ : Domain).not = Domain.empty :=
  domain_algebra ⟨5⟩ ⟨3⟩ (by norm_num) (by norm_num)

theorem clearLow_odd {m : Nat} (h : m % 2 = 1) : m &&& (m - 1) = m - 1 := by
  apply Nat.eq_of_testBit_eq
  intro i
  cases i with
  | zero =>
    have h1 : (m - 1) % 2 = 0 := by omega
    rw [Nat.testBit_land]
    simp [Nat.testBit_zero, h, h1]
  | succ j =>
    rw [Nat.testBit_land, Nat.testBit_add_one, Nat.testBit_add_one,
      show (m - 1) / 2 = m / 2 from by omega, Bool.and_self]

theorem clearLow_even {m : Nat} (h0 : m % 2 = 0) (_hne : m ≠ 0) :
    m &&& (m - 1) = 2 * ((m / 2) &&& (m / 2 - 1)) := by
  apply Nat.eq_of_testBit_eq
  intro i
  cases i with
  | zero =>
    rw [Nat.testBit_land]
    simp [Nat.testBit_zero, h0, Nat.mul_mod_right]
  | succ j =>
    rw [Nat.testBit_land, Nat.testBit_add_one, Nat.testBit_add_one,
      Nat.testBit_add_one, show (m - 1) / 2 = m / 2 - 1 from by omega,
      show 2 * (m / 2 &&& (m / 2 - 1)) / 2 = m / 2 &&& (m / 2 - 1) from by omega,
      Nat.testBit_land]

theorem tzGo_congr : ∀ {f g m : Nat}, m ≠ 0 → m < 2 ^ f → m < 2 ^ g →
    tzGo f m = tzGo g m := by
  intro f
  induction f with
  | zero => intro g m hne hf _; simp at hf; omega
  | succ f ih =>
    intro g m hne hf hg
    cases g with
    | zero => simp at hg; omega
    | succ g' =>
      simp only [tzGo]
      by_cases hpar : m % 2 = 1
      · rw [if_pos hpar, if_pos hpar]
      · rw [if_neg hpar, if_neg hpar]
        congr 1
        have hd0 : m / 2 ≠ 0 := by omega
        refine ih hd0 ?_ ?_
        · exact Nat.div_lt_of_lt_mul (by rw [Nat.mul_comm, ← Nat.pow_succ]; exact hf)
        · exact Nat.div_lt_of_lt_mul (by rw [Nat.mul_comm, ← Nat.pow_succ]; exact hg)

theorem tz_odd {m : Nat} (h : m % 2 = 1) : trailing_zeros m = 0 := by
  simp [trailing_zeros, tzGo, h]

theorem tz_even {m : Nat} (h0 : m % 2 = 0) (hne : m ≠ 0) (hm : m < 2 ^ 32) :
    trailing_zeros m = trailing_zeros (m / 2) + 1 := by
  have h31 : m / 2 < 2 ^ 31 :=
    Nat.div_lt_of_lt_mul (by rw [Nat.mul_comm, ← Nat.pow_succ]; exact hm)
  show tzGo (31 + 1) m = tzGo 32 (m / 2) + 1
  simp only [tzGo]
  rw [if_neg (by omega)]
  congr 1
  exact tzGo_congr (by omega) h31 (lt_trans h31 (by norm_num : (2 : Nat) ^ 31 < 2 ^ 32))

theorem iterGo_two_mul {f : Nat} : ∀ {x : Nat}, x < 2 ^ 31 →
    Domain.iterGo f (2 * x) =
      (Domain.iterGo f x).map (fun d => ⟨2 * d.val⟩) := by
  induction f with
  | zero => intro x _; rfl
  | succ f ih =>
    intro x hx
    by_cases hx0 : x = 0
    · subst hx0; simp [Domain.iterGo]
    · have h2x0 : 2 * x ≠ 0 := by omega
      simp only [Domain.iterGo]
      rw [if_neg h2x0, if_neg hx0, List.map_cons]
      congr 1
      · have htz : trailing_zeros (2 * x) = trailing_zeros x + 1 := by
          have h32 : 2 * x < 2 ^ 32 := by
            have : (2 : Nat) ^ 32 = 2 * 2 ^ 31 := by norm_num
            omega
          rw [tz_even (by omega) h2x0 h32, Nat.mul_div_cancel_left x (by omega)]
        rw [htz, Nat.shiftLeft_eq, Nat.shiftLeft_eq, one_mul, one_mul,
          Nat.pow_succ, Nat.mul_comm]
      · rw [clearLow_even (by omega) h2x0,
          Nat.mul_div_cancel_left x (by omega)]
        exact ih (lt_of_le_of_lt Nat.and_le_left hx)

theorem bitIndices_ne_nil {n : Nat} (h : n ≠ 0) : Nat.bitIndices n ≠ [] := by
  intro hnil
  apply h
  have := Nat.twoPowSum_bitIndices n
  rw [hnil] at this
  simpa using this.symm

theorem mem_bitIndices : ∀ {n k : Nat}, k ∈ Nat.bitIndices n ↔ n.testBit k = true := by
  intro n
  induction n using Nat.strong_induction_on with
  | _ n ih =>
    intro k
    by_cases hn0 : n = 0
    · subst hn0; simp
    · rcases Nat.mod_two_eq_zero_or_one n with hpar | hpar
      · obtain ⟨x, rfl⟩ : ∃ x, n = 2 * x := ⟨n / 2, by omega⟩
        have hx0 : x ≠ 0 := by omega
        rw [Nat.bitIndices_two_mul]
        cases k with
        | zero =>
          simp [Nat.testBit_zero, Nat.mul_mod_right]
        | succ j =>
          rw [Nat.testBit_add_one, Nat.mul_div_cancel_left x (by omega)]
          rw [← ih x (by omega) (k := j)]
          simp
      · obtain ⟨x, rfl⟩ : ∃ x, n = 2 * x + 1 := ⟨n / 2, by omega⟩
        rw [Nat.bitIndices_two_mul_add_one]
        cases k with
        | zero => simp [Nat.testBit_zero, Nat.mul_add_mod]
        | succ j =>
          rw [Nat.testBit_add_one,
            show (2 * x + 1) / 2 = x from by omega]
          rw [← ih x (by omega) (k := j)]
          simp

theorem iterGo_eq_bitIndices : ∀ {m : Nat}, ∀ {f : Nat}, m < 2 ^ 32 →
    (Nat.bitIndices m).length ≤ f →
    Domain.iterGo f m = (Nat.bitIndices m).map (fun k => ⟨2 ^ k⟩) := by
  intro m
  induction m using Nat.strong_induction_on with
  | _ m ih =>
    intro f hm hf
    by_cases hm0 : m = 0
    · subst hm0
      cases f <;> simp [Domain.iterGo]
    · have hpos : 0 < (Nat.bitIndices m).length :=
        List.length_pos.mpr (bitIndices_ne_nil hm0)
      cases f with
      | zero => omega
      | succ f' =>
        rcases Nat.mod_two_eq_zero_or_one m with hpar | hpar
        · obtain ⟨x, rfl⟩ : ∃ x, m = 2 * x := ⟨m / 2, by omega⟩
          have hx31 : x < 2 ^ 31 := by
            have : (2 : Nat) ^ 32 = 2 * 2 ^ 31 := by norm_num
            omega
          rw [iterGo_two_mul hx31]
          rw [ih x (by omega) (lt_trans hx31 (by norm_num))
            (by rw [Nat.bitIndices_two_mul] at hf; simpa using hf)]
          rw [Nat.bitIndices_two_mul, List.map_map, List.map_map]
          apply List.map_congr_left
          intro k _
          simp [Function.comp, Nat.pow_succ, Nat.mul_comm]
        · obtain ⟨x, rfl⟩ : ∃ x, m = 2 * x + 1 := ⟨m / 2, by omega⟩
          have hx31 : x < 2 ^ 31 := by
            have : (2 : Nat) ^ 32 = 2 * 2 ^ 31 := by norm_num
            omega
          simp only [Domain.iterGo]
          rw [if_neg hm0, tz_odd hpar, clearLow_odd hpar,
            show 2 * x + 1 - 1 = 2 * x from by omega,
            iterGo_two_mul hx31]
          rw [ih x (by omega) (lt_trans hx31 (by norm_num))
            (by rw [Nat.bitIndices_two_mul_add_one] at hf; simp at hf; omega)]
          rw [Nat.bitIndices_two_mul_add_one, List.map_cons, List.map_map,
            List.map_map]
          congr 1
          apply List.map_congr_left
          intro k _
          simp [Function.comp, Nat.pow_succ, Nat.mul_comm]

theorem bitIndices_length_le {m : Nat} (hm : m < 2 ^ 32) :
    (Nat.bitIndices m).length ≤ 32 := by
  have hnd : (Nat.bitIndices m).Nodup := Nat.bitIndices_sorted.nodup
  have hsub : (Nat.bitIndices m).toFinset ⊆ Finset.range 32 := by
    intro k hk
    rw [List.mem_toFinset] at hk
    rw [Finset.mem_range]
    by_contra hge
    have := Nat.two_pow_le_of_mem_bitIndices hk
    have : (2 : Nat) ^ 32 ≤ 2 ^ k := Nat.pow_le_pow_right (by omega) (by omega)
    omega
  calc (Nat.bitIndices m).length = (Nat.bitIndices m).toFinset.card :=
        (List.toFinset_card_of_nodup hnd).symm
    _ ≤ (Finset.range 32).card := Finset.card_le_card hsub
    _ = 32 := Finset.card_range 32

theorem as_single_pow {k : Nat} (hk : k < 32) :
    Domain.as_single_tile ⟨2 ^ k⟩ = TileType.from_repr k := by
  have h1 : (Domain.mk (2 ^ k)).entropy = 1 := count_ones_pow hk
  rw [Domain.as_single_tile, if_neg (by simp [h1])]
  simp only [trailing_zeros_pow hk]
  by_cases hk24 : k > 24
  · rw [if_pos hk24]
    obtain ⟨j, rfl⟩ : ∃ j, k = j + 25 := ⟨k - 25, by omega⟩
    rw [from_repr_ge]
  · rw [if_neg hk24]

theorem iter_tiles_eq_filterMap {d : Domain} (hd : d.val < 2 ^ 32) :
    d.iter_tiles = (Nat.bitIndices d.val).filterMap TileType.from_repr := by
  rw [Domain.iter_tiles, iterGo_eq_bitIndices hd (bitIndices_length_le hd),
    List.filterMap_map]
  apply List.filterMap_congr
  intro k hk
  have hk32 : k < 32 := by
    have h2k := Nat.two_pow_le_of_mem_bitIndices hk
    by_contra hge
    have : (2 : Nat) ^ 32 ≤ 2 ^ k := Nat.pow_le_pow_right (by omega) (by omega)
    omega
  exact as_single_pow hk32

theorem iter_tiles_sorted {d : Domain} (hd : d.val < 2 ^ 32) :
    List.Pairwise (fun s t : TileType => s.toNum < t.toNum) d.iter_tiles := by
  rw [iter_tiles_eq_filterMap hd, List.pairwise_filterMap]
  refine List.Pairwise.imp ?_ (Nat.bitIndices_sorted (n := d.val))
  intro a b hab t ht u hu
  rw [Option.mem_def] at ht hu
  rw [from_repr_some ht, from_repr_some hu]
  exact hab

theorem iter_tiles_mem {d : Domain} (hd : d.val < 2 ^ 32) (t : TileType) :
    t ∈ d.iter_tiles ↔ d.has t = true := by
  rw [iter_tiles_eq_filterMap hd, List.mem_filterMap, Domain.has]
  constructor
  · rintro ⟨k, hk, hsome⟩
    rw [from_repr_some hsome]
    exact mem_bitIndices.mp hk
  · intro h
    exact ⟨t.toNum, mem_bitIndices.mpr h, from_repr_toNum t⟩

/-- C10: Domain::iter_tiles yields exactly the TileTypes whose mask bit is
set, each once, in increasing ordinal order; set bits at positions 25..31
correspond to no TileType and are silently skipped (nothing is yielded for
them and no error arises, since from_repr is none there). -/
theorem iter_tiles_spec (d : Domain) (hd : d.val < 2 ^ 32) :
    List.Pairwise (fun s t : TileType => s.toNum < t.toNum) d.iter_tiles ∧
    ∀ t : TileType, t ∈ d.iter_tiles ↔ d.has t = true :=
  ⟨iter_tiles_sorted hd, iter_tiles_mem hd⟩

/-- Witness for C10 at the concrete mask with bits 0, 1 and 25 set: the
iterator yields increasing distinct tiles and membership matches the bits
(in particular bit 25 yields nothing). -/
theorem iter_tiles_spec_witness :
    List.Pairwise (fun s t : TileType => s.toNum < t.toNum)
      (Domain.mk 33554435).iter_tiles ∧
    ∀ t : TileType, t ∈ (Domain.mk 33554435).iter_tiles ↔
      (Domain.mk 33554435).has t = true :=
  iter_tiles_spec ⟨33554435⟩ (by norm_num)

/-- C5 counterexample: inserting an already-present coord at a different
entropy succeeds (no error) and leaves the coord in two buckets at once. -/
theorem insert_already_present_counterexample :
    (BucketQueue.new 5).insert ⟨0, 0⟩ 5 =
      .ok ⟨[[], [], [], [], [⟨0, 0⟩]]⟩ ∧
    (BucketQueue.mk [[], [], [], [], [⟨0, 0⟩]]).insert ⟨0, 0⟩ 3 =
      .ok ⟨[[], [], [⟨0, 0⟩], [], [⟨0, 0⟩]]⟩ ∧
    ((BucketQueue.mk [[], [], [⟨0, 0⟩], [], [⟨0, 0⟩]]).buckets.countP
      (fun b => decide ((⟨0, 0⟩ : Coord) ∈ b))) = 2 := by
  refine ⟨rfl, rfl, by decide⟩

/-- C5 amended: BucketQueue::insert returns an error exactly when the
entropy is 0 or exceeds max_entropy (the number of buckets); it performs no
presence check, so re-inserting a present coord at another entropy is
accepted and the coord then occupies two buckets (see the counterexample);
the at-most-one-bucket invariant is maintained only by the caller's
discipline, not by insert. -/
theorem insert_error_iff (q : BucketQueue) (c : Coord) (e : Nat) :
    (∃ err, q.insert c e = .error err) ↔ e = 0 ∨ q.buckets.length < e := by
  rw [BucketQueue.insert, BucketQueue.get_bucket_index]
  by_cases h0 : e = 0
  · simp [h0]
  · rw [if_neg h0]
    by_cases hlen : q.buckets.length ≤ e - 1
    · simp only [if_pos hlen]
      constructor
      · intro; omega
      · intro; exact ⟨.EntropyOutOfBounds e q.buckets.length, rfl⟩
    · simp only [if_neg hlen]
      constructor
      · rintro ⟨err, herr⟩; exact absurd herr (by simp)
      · intro h; omega

theorem extractGo_eq_none {bs : List (List Coord)} :
    BucketQueue.extractGo bs = none ↔ ∀ b ∈ bs, b = [] := by
  induction bs with
  | nil => simp [BucketQueue.extractGo]
  | cons b rest ih =>
    cases b with
    | nil =>
      simp only [BucketQueue.extractGo, Option.map_eq_none']
      rw [ih]
      simp
    | cons c b' =>
      simp [BucketQueue.extractGo]

theorem extractGo_eq_some {bs : List (List Coord)} :
    ∀ {c : Coord} {e : Nat} {bs' : List (List Coord)},
    BucketQueue.extractGo bs = some (c, e, bs') →
    1 ≤ e ∧ c ∈ bs.getD (e - 1) [] ∧
      (∀ j : Nat, ∀ c' ∈ bs.getD j [], e ≤ j + 1) ∧
      bs' = bs.set (e - 1) ((bs.getD (e - 1) []).filter (fun x => x ≠ c)) := by
  induction bs with
  | nil => intro c e bs' h; exact absurd h (by simp [BucketQueue.extractGo])
  | cons b rest ih =>
    intro c e bs' h
    cases b with
    | nil =>
      simp only [BucketQueue.extractGo, Option.map_eq_some'] at h
      obtain ⟨⟨c₀, e₀, bs₀⟩, hrec, heq⟩ := h
      obtain ⟨rfl, rfl, rfl⟩ : c₀ = c ∧ e₀ + 1 = e ∧ [] :: bs₀ = bs' := by
        have h1 := congrArg (fun r => r.1) heq
        have h2 := congrArg (fun r => r.2.1) heq
        have h3 := congrArg (fun r => r.2.2) heq
        simp at h1 h2 h3
        exact ⟨h1, h2, h3⟩
      obtain ⟨he₀, hmem, hmin, hset⟩ := ih hrec
      refine ⟨by omega, ?_, ?_, ?_⟩
      · rw [show e₀ + 1 - 1 = (e₀ - 1) + 1 from by omega, List.getD_cons_succ]
        exact hmem
      · intro j c' hj
        cases j with
        | zero => simp at hj
        | succ j' =>
          rw [List.getD_cons_succ] at hj
          have := hmin j' c' hj
          omega
      · rw [show e₀ + 1 - 1 = (e₀ - 1) + 1 from by omega, List.getD_cons_succ,
          List.set_cons_succ, hset]
    | cons c₀ b' =>
      simp only [BucketQueue.extractGo, Option.some.injEq] at h
      have h1 : c₀ = c := congrArg (fun r => r.1) h
      have h2 : (1 : Nat) = e := congrArg (fun r => r.2.1) h
      have h3 : ((c₀ :: b').filter (fun x => x ≠ c₀)) :: rest = bs' :=
        congrArg (fun r => r.2.2) h
      subst h1
      subst h2
      subst h3
      refine ⟨le_refl 1, by simp, fun j c' _ => by omega, by simp⟩

/-- C7: extract_min returns none exactly when no coord is stored; otherwise
it returns a stored coord at its stored entropy (bucket index + 1), that
entropy is minimal among all stored coords, and the resulting queue is the
original with exactly that coord removed from that bucket. -/
theorem extract_min_spec (q : BucketQueue) :
    (q.extract_min = none ↔ ∀ b ∈ q.buckets, b = []) ∧
    (∀ (c : Coord) (e : Nat) (q' : BucketQueue),
      q.extract_min = some ((c, e), q') →
      1 ≤ e ∧ c ∈ q.atIndex (e - 1) ∧
        (∀ j : Nat, ∀ c' ∈ q.atIndex j, e ≤ j + 1) ∧
        q'.buckets = q.buckets.set (e - 1)
          ((q.atIndex (e - 1)).filter (fun x => x ≠ c))) := by
  constructor
  · rw [BucketQueue.extract_min, Option.map_eq_none']
    exact extractGo_eq_none
  · intro c e q' h
    rw [BucketQueue.extract_min, Option.map_eq_some'] at h
    obtain ⟨⟨c₀, e₀, bs₀⟩, hrec, heq⟩ := h
    obtain ⟨rfl, rfl, hq'⟩ : c₀ = c ∧ e₀ = e ∧ BucketQueue.mk bs₀ = q' := by
      have h1 := congrArg (fun r => r.1.1) heq
      have h2 := congrArg (fun r => r.1.2) heq
      have h3 := congrArg (fun r => r.2) heq
      simp at h1 h2 h3
      exact ⟨h1, h2, h3⟩
    obtain ⟨he, hmem, hmin, hset⟩ := extractGo_eq_some hrec
    exact ⟨he, hmem, hmin, by rw [← hq']; exact hset⟩

/-- Witness for C7 at a concrete queue holding one coord at entropy 2. -/
theorem extract_min_spec_witness :
    1 ≤ 2 ∧ (⟨0, 0⟩ : Coord) ∈ (BucketQueue.mk [[], [⟨0, 0⟩]]).atIndex (2 - 1) ∧
    (∀ j : Nat, ∀ c' ∈ (BucketQueue.mk [[], [⟨0, 0⟩]]).atIndex j, 2 ≤ j + 1) ∧
    (BucketQueue.mk [[], []]).buckets =
      (BucketQueue.mk [[], [⟨0, 0⟩]]).buckets.set (2 - 1)
        (((BucketQueue.mk [[], [⟨0, 0⟩]]).atIndex (2 - 1)).filter
          (fun x => x ≠ (⟨0, 0⟩ : Coord))) :=
  (extract_min_spec ⟨[[], [⟨0, 0⟩]]⟩).2 ⟨0, 0⟩ 2 ⟨[[], []]⟩ rfl

/-- C1: on scenario S1 the iterator yields the event SetTile{(0,0), A}
TWICE before ending: next() returns a freshly built SetTile after the
collapse cycle without popping the copy that collapse() pushed onto the
timeline, so the following call pops and returns that same event again;
afterwards every call returns none. -/
theorem s1_event_delivered_twice :
    (WFCState.new mapS1 []).map (WFCState.stepEvents 99 4) =
      some [some (.SetTile tileA ⟨0, 0⟩), some (.SetTile tileA ⟨0, 0⟩),
        none, none] := by decide

/-- C2: on state sC2 the collapse cycle hits EmptyDomain at (0,1), the
backtrack of that explicit collapse raises ExhaustedPaths, and the retry
re-targets find_last_collapse() WITHOUT the plus-one: the remaining
explicit collapse of (0,0) (history index 0, so the claimed target length
would be 1) is popped by the plain undo loop, tile A is never forbidden
there, and the cycle then happily re-collapses (0,0) to the very same A
and reports success, leaving (0,1) an empty-domain orphan with no UndoTile
for it; under the claimed semantics the solve would instead be reported
unsolvable. -/
theorem exhausted_retry_missing_plus_one :
    sC2.find_last_collapse = some 0 ∧
    okResult (WFCState.collapseLoop 99 sC2) = some (tileA, ⟨0, 0⟩) ∧
    (okState (WFCState.collapseLoop 99 sC2)).map
      (fun s' => (s'.map.get_tile ⟨0, 0⟩).tile_type) = some (some tileA) ∧
    (okState (WFCState.collapseLoop 99 sC2)).map
      (fun s' => (s'.map.get_tile ⟨0, 0⟩).current_domain) = some ⟨1⟩ ∧
    (okState (WFCState.collapseLoop 99 sC2)).map
      (fun s' => (s'.map.get_tile ⟨0, 1⟩).tile_type) = some none ∧
    (okState (WFCState.collapseLoop 99 sC2)).map
      (fun s' => (s'.map.get_tile ⟨0, 1⟩).current_domain) = some ⟨0⟩ ∧
    (okState (WFCState.collapseLoop 99 sC2)).map (fun s' => s'.history) =
      some [.Collapse .Explicit tileA ⟨0, 0⟩ ⟨0⟩] ∧
    (okState (WFCState.collapseLoop 99 sC2)).map (fun s' => s'.timeline) =
      some [.SetTile tileB ⟨0, 1⟩, .UndoTile ⟨0, 0⟩, .SetTile tileA ⟨0, 0⟩] := by
  refine ⟨by decide, by decide, by decide, by decide, by decide, by decide,
    by decide, by decide⟩

/-- C3 counterexample: tile B has no supports entry; on scenario C3 the
first collapse cycle picks B, propagation hits the missing entry, and
instead of aborting with next() = none the solver backtracks (UndoTile of
(0,0) in the timeline, B forbidden) and continues: next() returns
SetTile{(0,0), A}. -/
theorem missing_entry_not_fatal_counterexample :
    tdC3.supports tileB = none ∧
    (WFCState.new mapC3 [1]).map (fun s => (WFCState.next 99 s).1) =
      some (some (.SetTile tileA ⟨0, 0⟩)) ∧
    (WFCState.new mapC3 [1]).map (fun s => (WFCState.next 99 s).2.timeline) =
      some [.SetTile tileB ⟨0, 0⟩, .UndoTile ⟨0, 0⟩, .SetTile tileA ⟨0, 0⟩] := by
  refine ⟨rfl, by decide, by decide⟩

/-- C4 counterexample: on the asymmetric table tdC4 the solve succeeds in
one next() call (queue empty, every cell collapsed to a singleton), cell
(0,0) is the Top-neighbour of (1,0), (1,0) holds A and (0,0) holds B, yet
B is not in supports(A, Top): the claimed success post-condition fails,
because propagation skips already-collapsed neighbours. -/
theorem solve_success_adjacency_counterexample :
    (WFCState.new mapC4 [1]).map
      (fun s => ((WFCState.next 99 s).2.least_entropy.peek_min)) = some none ∧
    (WFCState.new mapC4 [1]).map
      (fun s => ((WFCState.next 99 s).2.map.get_tile ⟨0, 0⟩)) =
      some ⟨some tileB, tileB.mask⟩ ∧
    (WFCState.new mapC4 [1]).map
      (fun s => ((WFCState.next 99 s).2.map.get_tile ⟨0, 1⟩)) =
      some ⟨some tileA, tileA.mask⟩ ∧
    (WFCState.new mapC4 [1]).map
      (fun s => ((WFCState.next 99 s).2.map.get_tile ⟨1, 0⟩)) =
      some ⟨some tileA, tileA.mask⟩ ∧
    (WFCState.new mapC4 [1]).map
      (fun s => ((WFCState.next 99 s).2.map.get_tile ⟨1, 1⟩)) =
      some ⟨some tileB, tileB.mask⟩ ∧
    some (Direction.Top, (⟨0, 0⟩ : Coord)) ∈ Coord.neighbours ⟨1, 0⟩ 2 2 ∧
    (tdC4.supports tileA).map (fun tc => tc.top.has tileB) = some false := by
  refine ⟨by decide, by decide, by decide, by decide, by decide, by decide,
    by decide⟩

theorem update_constraints_domain (tile : Tile) (nc : Domain) :
    (tile.update_constraints nc).2.current_domain =
      tile.current_domain.intersection nc := by
  simp only [Tile.update_constraints]
  split <;> rfl

theorem get_set_tile (m : Map) (c : Coord) (t : Tile)
    (hrow : c.row < m.tiles.length)
    (hcol : c.col < (m.tiles.getD c.row []).length) :
    (m.set_tile c t).get_tile c = t := by
  rw [Map.get_tile, Map.set_tile]
  simp only
  have h1 : ((m.tiles.set c.row ((m.tiles.getD c.row []).set c.col t)).getD c.row []) =
      (m.tiles.getD c.row []).set c.col t := by
    rw [List.getD_eq_getElem?_getD, List.getElem?_set_self]
    · simp
    · exact hrow
  rw [h1, List.getD_eq_getElem?_getD, List.getElem?_set_self]
  · simp
  · exact hcol

theorem processOne_map (s : WFCState) (chosen_cell : Coord) (chosen_tile : TileType)
    (changed_cell : Coord) (stack : List Coord) (d : Direction) (n : Coord)
    (allowed : Domain)
    (hsup : WFCState.allSupported s.map.tile_data d
      ((s.map.get_tile changed_cell).current_domain).iter_tiles Domain.empty = .ok allowed)
    (hnc : (s.map.get_tile n).tile_type = none) :
    (outStateP (WFCState.processOne s chosen_cell chosen_tile changed_cell stack (d, n))).map =
      s.map.set_tile n (Tile.update_constraints (s.map.get_tile n) allowed).2 := by
  simp only [WFCState.processOne, hsup]
  rw [hnc]
  simp only [Option.isSome_none, Bool.false_eq_true, if_false]
  rcases hup : Tile.update_constraints (s.map.get_tile n) allowed with ⟨removed?, tile'⟩
  cases removed? with
  | none => simp [outStateP]
  | some removed =>
      simp only
      split
      · simp [outStateP]
      · split
        · simp [outStateP]
        · split
          · split
            · simp [outStateP]
            · split
              · simp [outStateP]
              · simp [outStateP]
          · simp [outStateP]

theorem allSupported_error_iff (td : TileData) (dir : Direction) :
    ∀ (ts : List TileType) (acc : Domain),
    (∃ e, WFCState.allSupported td dir ts acc = .error e) ↔
      ∃ t ∈ ts, td.supports t = none := by
  intro ts
  induction ts with
  | nil => intro acc; simp [WFCState.allSupported]
  | cons t ts ih =>
    intro acc
    rcases h : td.supports t with _ | tc
    · simp only [WFCState.allSupported, h]
      constructor
      · intro; exact ⟨t, by simp, h⟩
      · intro; exact ⟨.MissingConstraint t, rfl⟩
    · simp only [WFCState.allSupported, h]
      rw [ih]
      constructor
      · rintro ⟨t', ht', hn⟩; exact ⟨t', by simp [ht'], hn⟩
      · rintro ⟨t', ht', hn⟩
        rcases List.mem_cons.mp ht' with rfl | hmem
        · rw [h] at hn; exact absurd hn (by simp)
        · exact ⟨t', hmem, hn⟩

theorem has_add_tiles (a b : Domain) (u : TileType) :
    (a.add_tiles b).has u = (a.has u || b.has u) := by
  simp [Domain.add_tiles, Domain.has, Nat.testBit_lor]

theorem allSupported_ok_has (td : TileData) (dir : Direction) :
    ∀ (ts : List TileType) (acc allowed : Domain),
    WFCState.allSupported td dir ts acc = .ok allowed →
    ∀ u : TileType, allowed.has u = true ↔
      (acc.has u = true ∨
        ∃ t ∈ ts, ∃ tc, td.supports t = some tc ∧ (dirField tc dir).has u = true) := by
  intro ts
  induction ts with
  | nil =>
    intro acc allowed h u
    simp only [WFCState.allSupported] at h
    cases h
    simp
  | cons t ts ih =>
    intro acc allowed h u
    rcases hsup : td.supports t with _ | tc
    · rw [WFCState.allSupported, hsup] at h
      exact absurd h (by simp)
    · simp only [WFCState.allSupported, hsup] at h
      cases dir <;>
      · rw [ih _ _ h u, has_add_tiles]
        constructor
        · rintro (hor | htail)
          · rcases Bool.or_eq_true_iff.mp hor with ha | hb
            · exact Or.inl ha
            · exact Or.inr ⟨t, by simp, tc, hsup, hb⟩
          · rcases htail with ⟨t', ht', tc', hsome, hhas⟩
            exact Or.inr ⟨t', by simp [ht'], tc', hsome, hhas⟩
        · rintro (ha | ⟨t', ht', tc', hsome, hhas⟩)
          · exact Or.inl (by simp [ha])
          · rcases List.mem_cons.mp ht' with rfl | hmem
            · rw [hsup] at hsome
              cases hsome
              refine Or.inl ?_
              simp only [dirField] at hhas
              simp [hhas]
            · exact Or.inr ⟨t', hmem, tc', hsome, hhas⟩

theorem has_intersection (a b : Domain) (u : TileType) :
    (a.intersection b).has u = (a.has u && b.has u) := by
  simp [Domain.intersection, Domain.has, Nat.testBit_land]

theorem has_empty (u : TileType) : Domain.empty.has u = false := by
  simp [Domain.empty, Domain.has]

/-- C3 amended: a tile type lacking a supports entry makes the allowed
union computation of propagate fail with an error (exactly when such a
type occurs in the changed cell's domain list); the collapse cycle treats
that error like any propagation contradiction: it enters backtracking,
forbids the last explicit choice and continues, as the concrete C3 run
shows (the retried collapse of (0,0) with A is the whole history). -/
theorem missing_entry_enters_backtracking :
    (∀ (td : TileData) (dir : Direction) (ts : List TileType) (acc : Domain),
      (∃ e, WFCState.allSupported td dir ts acc = .error e) ↔
        ∃ t ∈ ts, td.supports t = none) ∧
    (WFCState.new mapC3 [1]).map (fun s => (WFCState.next 99 s).2.history) =
      some [.Collapse .Explicit tileA ⟨0, 0⟩ ⟨0⟩] :=
  ⟨fun td dir ts acc => allSupported_error_iff td dir ts acc, by decide⟩

/-- C4 amended: when propagation processes an in-bounds neighbour n of
changed_cell in direction d whose tile is not yet collapsed, the
neighbour's domain after the step is exactly its prior domain intersected
with the union of supports(t, d) over the t in the changed cell's current
domain (whatever the step outcome); already-collapsed neighbours are
skipped without any check, which is why the global success post-condition
of the original claim fails (see the counterexample). -/
theorem propagate_constrains_noncollapsed_neighbour
    (s : WFCState) (chosen_cell : Coord) (chosen_tile : TileType)
    (changed_cell : Coord) (stack : List Coord) (d : Direction) (n : Coord)
    (allowed : Domain)
    (hrow : n.row < s.map.tiles.length)
    (hcol : n.col < (s.map.tiles.getD n.row []).length)
    (hsup : WFCState.allSupported s.map.tile_data d
      ((s.map.get_tile changed_cell).current_domain).iter_tiles Domain.empty =
        .ok allowed)
    (hnc : (s.map.get_tile n).tile_type = none)
    (hd32 : (s.map.get_tile changed_cell).current_domain.val < 2 ^ 32) :
    ((outStateP (WFCState.processOne s chosen_cell chosen_tile changed_cell stack
        (d, n))).map.get_tile n).current_domain =
      (s.map.get_tile n).current_domain.intersection allowed ∧
    ∀ u : TileType,
      ((s.map.get_tile n).current_domain.intersection allowed).has u = true ↔
        ((s.map.get_tile n).current_domain.has u = true ∧
          ∃ t, (s.map.get_tile changed_cell).current_domain.has t = true ∧
            ∃ tc, s.map.tile_data.supports t = some tc ∧
              (dirField tc d).has u = true) := by
  constructor
  · rw [processOne_map s chosen_cell chosen_tile changed_cell stack d n allowed
      hsup hnc, get_set_tile _ _ _ hrow hcol, update_constraints_domain]
  · intro u
    have hallowed := allSupported_ok_has s.map.tile_data d _ _ _ hsup u
    rw [has_intersection, Bool.and_eq_true]
    constructor
    · rintro ⟨hp, ha⟩
      rcases hallowed.mp ha with hempty | ⟨t, htmem, tc, hsome, hdir⟩
      · rw [has_empty] at hempty
        exact absurd hempty (by simp)
      · exact ⟨hp, t, (iter_tiles_mem hd32 t).mp htmem, tc, hsome, hdir⟩
    · rintro ⟨hp, t, hthas, tc, hsome, hdir⟩
      refine ⟨hp, hallowed.mpr (Or.inr ⟨t, (iter_tiles_mem hd32 t).mpr hthas,
        tc, hsome, hdir⟩)⟩

/-- Witness for the amended C4 step theorem at a concrete state: the
neighbour (0,1) of (0,0) in direction Right gets constrained by the union
supports(A, Right) or supports(B, Right) = {A, B}. -/
theorem propagate_constrains_noncollapsed_neighbour_witness :
    ((outStateP (WFCState.processOne sW4 ⟨0, 0⟩ tileA ⟨0, 0⟩ []
        (Direction.Right, ⟨0, 1⟩))).map.get_tile ⟨0, 1⟩).current_domain =
      (sW4.map.get_tile ⟨0, 1⟩).current_domain.intersection ⟨3⟩ ∧
    ∀ u : TileType,
      ((sW4.map.get_tile ⟨0, 1⟩).current_domain.intersection ⟨3⟩).has u = true ↔
        ((sW4.map.get_tile ⟨0, 1⟩).current_domain.has u = true ∧
          ∃ t, (sW4.map.get_tile ⟨0, 0⟩).current_domain.has t = true ∧
            ∃ tc, sW4.map.tile_data.supports t = some tc ∧
              (dirField tc Direction.Right).has u = true) :=
  propagate_constrains_noncollapsed_neighbour sW4 ⟨0, 0⟩ tileA ⟨0, 0⟩ []
    Direction.Right ⟨0, 1⟩ ⟨3⟩ (by decide) (by decide) (by rfl) (by rfl)
    (by decide)

/-- C6: every solver operation preserves the cell invariant (a collapsed
cell's domain is exactly the singleton of its type): collapse_self
establishes it for the chosen tile; update_constraints preserves it on the
not-yet-collapsed cells it is applied to during propagation (an implicit
collapse stores exactly the single member); undo_collapse rewrites the
cell to an uncollapsed one, where the invariant is vacuous, and so does
undo_domain_reduction on the uncollapsed cells backtracking applies it to. -/
theorem cell_invariant_preserved :
    (∀ (tile : Tile) (k : Nat) (t : TileType) (rem : Domain) (tile' : Tile),
      tile.collapse_self k = some (t, rem, tile') →
      tile'.tile_type = some t ∧ tile'.current_domain = t.mask) ∧
    (∀ (tile : Tile) (nc : Domain), tile.tile_type = none →
      tile.current_domain.val < 2 ^ 32 →
      cellInv (tile.update_constraints nc).2) ∧
    (∀ (s : WFCState) (c : Coord) (rem : Domain),
      c.row < s.map.tiles.length →
      c.col < (s.map.tiles.getD c.row []).length →
      cellInv ((outState (s.undo_collapse c rem)).map.get_tile c)) ∧
    (∀ (s : WFCState) (c : Coord) (rem : Domain),
      c.row < s.map.tiles.length →
      c.col < (s.map.tiles.getD c.row []).length →
      (s.map.get_tile c).tile_type = none →
      cellInv ((outState (s.undo_domain_reduction c rem)).map.get_tile c)) := by
  refine ⟨?_, ?_, ?_, ?_⟩
  · intro tile k t rem tile' h
    rw [Tile.collapse_self] at h
    rcases hm : tile.current_domain.iter_tiles with _ | ⟨m, rest⟩
    · rw [hm] at h
      exact absurd h (by simp)
    · rw [hm] at h
      simp only [Option.some.injEq] at h
      have h1 : (m :: rest).getD (k % (m :: rest).length) m = t :=
        congrArg (fun r => r.1) h
      have h3 : (Tile.mk (some ((m :: rest).getD (k % (m :: rest).length) m))
          ((m :: rest).getD (k % (m :: rest).length) m).mask) = tile' :=
        congrArg (fun r => r.2.2) h
      rw [← h3, h1]
      exact ⟨rfl, rfl⟩
  · intro tile nc hnone h32
    rw [Tile.update_constraints]
    split
    · intro t ht
      rw [hnone] at ht
      exact absurd ht (by simp)
    · intro t ht
      simp only at ht
      by_cases h1 : (tile.current_domain.intersection nc).entropy = 1
      · rw [if_pos h1] at ht
        have hint32 : (tile.current_domain.intersection nc).val < 2 ^ 32 :=
          lt_of_le_of_lt Nat.and_le_left h32
        exact ((as_single_eq_some hint32).mp ht).2
      · rw [if_neg h1, hnone] at ht
        exact absurd ht (by simp)
  · intro s c rem hrow hcol
    have hmap : (outState (s.undo_collapse c rem)).map =
        s.map.set_tile c ⟨none, (s.map.get_tile c).current_domain.add_tiles rem⟩ := by
      rw [WFCState.undo_collapse]
      rcases hq : ((⟨s.map.set_tile c
          ⟨none, (s.map.get_tile c).current_domain.add_tiles rem⟩,
          s.least_entropy, s.timeline, s.history, s.picks⟩ :
            WFCState).least_entropy.insert c
          (Tile.mk none ((s.map.get_tile c).current_domain.add_tiles rem)).get_current_domain_size) with e | q
      · simp only [hq, outState]
      · simp only [hq, outState]
    rw [hmap, get_set_tile _ _ _ hrow hcol]
    intro t ht
    exact absurd ht (by simp)
  · intro s c rem hrow hcol hnone
    have hmap : (outState (s.undo_domain_reduction c rem)).map =
        s.map.set_tile c { s.map.get_tile c with
          current_domain := (s.map.get_tile c).current_domain.add_tiles rem } := by
      rw [WFCState.undo_domain_reduction]
      rcases hq : ((⟨s.map.set_tile c { s.map.get_tile c with
          current_domain := (s.map.get_tile c).current_domain.add_tiles rem },
          s.least_entropy, s.timeline, s.history, s.picks⟩ :
            WFCState).least_entropy.update_entropy c
          { s.map.get_tile c with
            current_domain := (s.map.get_tile c).current_domain.add_tiles rem
              }.get_current_domain_size) with e | q
      · simp only [hq, outState]
      · simp only [hq, outState]
    rw [hmap, get_set_tile _ _ _ hrow hcol]
    intro t ht
    simp only at ht
    rw [hnone] at ht
    exact absurd ht (by simp)

/-- Witness for C6 at concrete inputs: a singleton-domain cell collapses
to DeepWater with the singleton mask; a concrete update_constraints and
the two undo operations on state sC2 all leave invariant-satisfying
cells. -/
theorem cell_invariant_preserved_witness :
    ((Tile.mk (some tileA) tileA.mask).tile_type = some tileA ∧
      (Tile.mk (some tileA) tileA.mask).current_domain = tileA.mask) ∧
    cellInv ((Tile.mk none fullAB).update_constraints ⟨1⟩).2 ∧
    cellInv ((outState (sC2.undo_collapse ⟨1, 0⟩ ⟨0⟩)).map.get_tile ⟨1, 0⟩) ∧
    cellInv ((outState (sC2.undo_domain_reduction ⟨1, 0⟩ ⟨0⟩)).map.get_tile ⟨1, 0⟩) :=
  ⟨cell_invariant_preserved.1 (Tile.mk none tileA.mask) 0 tileA ⟨0⟩
      (Tile.mk (some tileA) tileA.mask) (by decide),
    cell_invariant_preserved.2.1 (Tile.mk none fullAB) ⟨1⟩ rfl (by decide),
    cell_invariant_preserved.2.2.1 sC2 ⟨1, 0⟩ ⟨0⟩ (by decide) (by decide),
    cell_invariant_preserved.2.2.2 sC2 ⟨1, 0⟩ ⟨0⟩ (by decide) (by decide) rfl⟩
